import Mathlib

/-!
Shallow embedding, in Lean 4, of the core of the Vimprove repository:
the vimdoc segmenter (`src/vim_doc_chunker.py`), the markdown segmenter
(`src/readme_chunker.py`), chunk persistence (`src/chunk.py`), chunk
identity and batch id assignment (`src/embedding_pipeline.py`), the
release tracker (`src/github_release_tracker.py`) and the ingestion
orchestrator's control flow (`ingestion_pipeline.py`).

Python strings are modelled as Lean `String`; Python dicts as ordered
association lists (insertion order preserved, as in CPython); fallible
operations return `Option`/`Except`; external collaborators (GitHub,
filesystem, the markdown-it parser, SHA-256, the wall clock) are
parameters of the definitions.
-/

namespace Vimprove

/-! ## Python string primitives

`pyIsSpace` is the ASCII whitespace set of Python's `str.strip()`
(space, tab, newline, carriage return, vertical tab, form feed). -/

def pyIsSpace (c : Char) : Bool :=
  c = ' ' || c = '\t' || c = '\n' || c = '\r' || c = '\x0b' || c = '\x0c'

/-- Python `str.strip()` (both-sided trim) on the ASCII whitespace set. -/
def pyStrip (s : String) : String :=
  (((s.toList.dropWhile pyIsSpace).reverse.dropWhile pyIsSpace).reverse).asString

/-- Python `str.rstrip("\n")`: drop only trailing newline characters. -/
def rstripNL (s : String) : String :=
  ((s.toList.reverse.dropWhile (· = '\n')).reverse).asString

/-- Python `s.split(sep)` for a one-character separator `sep`, over the
character list. -/
def splitOnCharAux (sep : Char) : List Char → List Char → List String
  | [], acc => [acc.reverse.asString]
  | c :: rest, acc =>
    if c = sep then acc.reverse.asString :: splitOnCharAux sep rest []
    else splitOnCharAux sep rest (c :: acc)

/-- Python `s.split(sep)` for a one-character separator. -/
def splitOnChar (sep : Char) (s : String) : List String :=
  splitOnCharAux sep s.toList []

/-- Python `sep.join(xs)`. -/
def joinSep (sep : String) : List String → String
  | [] => ""
  | [x] => x
  | x :: xs => x ++ sep ++ joinSep sep xs

/-! ## VimdocSegmenter — `chunk_vimdoc` in `src/vim_doc_chunker.py` -/

/-- A chunk produced by `chunk_vimdoc`: the dict
`{"type": "vimdoc", "source": ..., "heading": ..., "tags": ..., "text": ...}`. -/
structure VChunk where
  ctype : String
  source : String
  heading : String
  tags : List String
  text : String
deriving DecidableEq, Repr

/-- A full line consisting solely of 10-or-more `=` or 10-or-more `-`:
one alternative of `section_pattern = r"^[=]{10,}$|^[-]{10,}$"` matched
under `re.MULTILINE` against a whole line. -/
def isSepLine (l : String) : Bool :=
  10 ≤ l.length && (l.toList.all (· = '=') || l.toList.all (· = '-'))

/-- Group the lines of the input into the runs lying between separator
lines.  `re.split(section_pattern, text, flags=re.MULTILINE)` keeps the
newlines adjacent to a matched separator line in the neighbouring parts;
since every part is immediately passed through `.strip()`, grouping the
lines and re-joining with `"\n"` yields the same stripped parts. -/
def groupSections : List String → List (List String)
  | [] => [[]]
  | l :: rest =>
    match groupSections rest with
    | [] => if isSepLine l then [[], []] else [[l]]
    | g :: gs => if isSepLine l then [] :: g :: gs else (l :: g) :: gs

/-- The parts produced by `re.split(section_pattern, text, flags=re.MULTILINE)`,
up to the boundary newlines removed by the subsequent `.strip()`. -/
def splitSections (text : String) : List String :=
  (groupSections (splitOnChar '\n' text)).map (joinSep "\n")

/-- Scanner for `re.findall(r"\*([^*]+)\*", heading)` over the segments
of the heading split on `*`.  The input is the list of `*`-delimited
segments after the first `*`; a star sits between consecutive segments
and after the last one only if the heading ended in `*` (`splitOn`
yields a final segment after the last star, which can never close a
match, hence the `[_]` base case).  A non-empty segment between two
stars is a match; after it the scan resumes past its closing star; an
empty segment is a failed opener and the scan resumes at the next star. -/
def tagScan : List String → List String
  | [] => []
  | [_] => []
  | s1 :: s2 :: rest => if s1 = "" then tagScan (s2 :: rest) else s1 :: tagScan rest

/-- Model of `re.findall(r"\*([^*]+)\*", heading)`: all non-overlapping `*...*`
spans with a non-empty `*`-free interior, scanned left to right. -/
def findTags (heading : String) : List String :=
  match splitOnChar '*' heading with
  | [] => []
  | _ :: segs => tagScan segs

/-- The first loop of `chunk_vimdoc`: the first line whose `.strip()` is
non-empty, returned stripped, together with its index. -/
def findFirstNonBlank : List String → Nat → Option (String × Nat)
  | [], _ => none
  | l :: rest, i =>
    if pyStrip l ≠ "" then some (pyStrip l, i) else findFirstNonBlank rest (i + 1)

/-- Matcher for the lazy tail `.*?~\n` of `r"\n[A-Z].*?~\n"`: scan for the
first `~` immediately followed by a newline, failing if a newline is seen
first (`.` does not match `\n`).  Returns the characters after the match. -/
def matchTilde : List Char → Option (List Char)
  | [] => none
  | [_] => none
  | c1 :: c2 :: rest =>
    if c1 = '~' && c2 = '\n' then some rest
    else if c1 = '\n' then none
    else matchTilde (c2 :: rest)

/-- A match of `r"\n\n+|\n[A-Z].*?~\n"` starting at the current position
(first alternative preferred, with a greedy `\n+`), returning the
characters after the match when a match starts here. -/
def matchSep : List Char → Option (List Char)
  | [] => none
  | [_] => none
  | c1 :: c2 :: rest =>
    if c1 = '\n' then
      if c2 = '\n' then some (rest.dropWhile (· = '\n'))
      else if c2.isUpper then matchTilde rest else none
    else none

/-- Model of `re.split(r"\n\n+|\n[A-Z].*?~\n", body)`: scan left to right, cutting
at every leftmost non-overlapping match.  The extra `Nat` argument is a
structural-recursion bound: every step consumes at least one character
(`matchSep_length_lt`), so with the input's length as the bound the
first arm is never reached and the function computes the regex split. -/
def splitBodyAux : Nat → List Char → List Char → List (List Char)
  | 0, _, acc => [acc.reverse]
  | _ + 1, [], acc => [acc.reverse]
  | n + 1, c :: rest, acc =>
    match matchSep (c :: rest) with
    | some rest2 => acc.reverse :: splitBodyAux n rest2 []
    | none => splitBodyAux n rest (c :: acc)

def splitBody (body : String) : List String :=
  (splitBodyAux body.toList.length body.toList []).map List.asString

/-- The oversize-body branch of `chunk_vimdoc`: re-split the body, strip
each fragment, skip fragments shorter than 100 characters, and emit one
chunk per survivor, sharing the parent's heading and tags. -/
def subChunks (source heading : String) (tags : List String) (body : String) :
    List VChunk :=
  (splitBody body).filterMap fun sub =>
    let sub2 := pyStrip sub
    if sub2.length < 100 then none
    else some ⟨"vimdoc", source, heading, tags, sub2⟩

/-- The heading of a stripped part (first line that is non-blank after
stripping, itself stripped; `""` with index 0 if none), with its index. -/
def partHeadIdx (part : String) : String × Nat :=
  (findFirstNonBlank (splitOnChar '\n' part) 0).getD ("", 0)

/-- The value `body = "\n".join(body_lines).strip()` for a stripped part. -/
def partBody (part : String) : String :=
  pyStrip (joinSep "\n" ((splitOnChar '\n' part).drop ((partHeadIdx part).2 + 1)))

/-- The per-section body of `chunk_vimdoc`'s main loop, applied to one
already-stripped non-empty part. -/
def processPart (source part : String) : List VChunk :=
  let heading := (partHeadIdx part).1
  let tags := findTags heading
  let body := partBody part
  if 4000 < body.length then subChunks source heading tags body
  else [⟨"vimdoc", source, heading, tags, body⟩]

/-- The function `chunk_vimdoc(text, source)` from `src/vim_doc_chunker.py`. -/
def chunk_vimdoc (text source : String) : List VChunk :=
  (splitSections text).flatMap fun p =>
    let q := pyStrip p
    if q = "" then [] else processPart source q

/-! ## VersionTracker — `ReleaseTracker` in `src/github_release_tracker.py`

The in-memory cache `self.cache` is a Python dict from `"owner/repo"` to
a version string, modelled as an insertion-ordered association list.
`get_latest_release` performs network I/O and is a parameter: its result
is `some tag-or-short-SHA` or `none` (the method's `None` return). -/

/-- Python `dict.get`: the value at the first (unique) occurrence of the key. -/
def dictGet {α : Type} : List (String × α) → String → Option α
  | [], _ => none
  | (k', v') :: rest, k => if k' = k then some v' else dictGet rest k

/-- Python `dict[k] = v`: replace in place if the key is present
(insertion order preserved), else append. -/
def dictSet {α : Type} : List (String × α) → String → α → List (String × α)
  | [], k, v => [(k, v)]
  | (k', v') :: rest, k, v =>
    if k' = k then (k, v) :: rest else (k', v') :: dictSet rest k v

/-- The outcome of one `needs_update` call: its boolean result, the
in-memory cache afterwards, and the contents written to the cache file
by `_save_cache` during the call (`none` when no write happened). -/
structure TrackerResult where
  result : Bool
  cache : List (String × String)
  saved : Option (List (String × String))
deriving DecidableEq, Repr

/-- Model of `ReleaseTracker.needs_update(owner, repo)`: `latest` is the value
returned by `self.get_latest_release(owner, repo)`. -/
def needs_update (cache : List (String × String)) (owner repo : String)
    (latest : Option String) : TrackerResult :=
  let key := owner ++ "/" ++ repo
  match latest with
  | none => ⟨false, cache, none⟩
  | some v =>
    if dictGet cache key ≠ some v then
      let c2 := dictSet cache key v
      ⟨true, c2, some c2⟩
    else ⟨false, cache, none⟩

/-! ## ChunkStore — `save_chunks` / `load_chunks` in `src/chunk.py`

`json.dump`/`json.load` are modelled at the level of JSON values: saving
produces the JSON value serialised to the batch file, loading consumes
the JSON value parsed from it. -/

/-- A JSON value as produced by `json.load`. -/
inductive Json where
  | str (s : String)
  | num (n : Int)
  | bool (b : Bool)
  | null
  | arr (elems : List Json)
  | obj (fields : List (String × Json))

/-- Python `dict.get` on a parsed JSON object. -/
def jsonGet : List (String × Json) → String → Option Json
  | [], _ => none
  | (k', v') :: rest, k => if k' = k then some v' else jsonGet rest k

/-- Model of `save_chunks(chunks, source, output_path)`: the JSON value written,
as a function of the chunk list, the source label, and the wall-clock
string `datetime.utcnow().isoformat()` (external). -/
def save_chunks (chunks : List Json) (source : String) (utcnowIso : String) : Json :=
  .obj [("source", .str source),
        ("generated_at", .str (utcnowIso ++ "Z")),
        ("chunk_count", .num chunks.length),
        ("chunks", .arr chunks)]

/-- Model of `load_chunks(chunk_file)` applied to the parsed JSON value: a bare
array is returned as-is; an object yields `data.get("chunks", [])`; any
other value has no `.get`/list shape and raises (`none`). -/
def load_chunks : Json → Option (Json)
  | .arr elems => some (.arr elems)
  | .obj fields => some ((jsonGet fields "chunks").getD (.arr []))
  | _ => none

/-! ## ChunkIdentity — `VimproveEmbedder._generate_chunk_id` in
`src/embedding_pipeline.py`

A chunk is a Python dict whose values, in every chunk this code ever
receives, are strings or lists of strings; it is modelled as an ordered
association list over `PyVal`.  SHA-256 itself is an external pure
function `sha256hex : String → String` (the composition of UTF-8
encoding, `hashlib.sha256` and `.hexdigest()`), passed as a parameter. -/

/-- A Python value stored in a chunk dict: a string or a list of strings. -/
inductive PyVal where
  | s (v : String)
  | l (vs : List String)
deriving DecidableEq, Repr

/-- Python `dict.get` / `dict[...]` lookup on a chunk dict. -/
def pyDictGetV : List (String × PyVal) → String → Option PyVal
  | [], _ => none
  | (k', v') :: rest, k => if k' = k then some v' else pyDictGetV rest k

/-- Python truthiness of a chunk-dict value (`if chunk.get(...)`). -/
def pyTruthy : PyVal → Bool
  | .s v => v ≠ ""
  | .l vs => ¬ vs.isEmpty

/-- Python `sep.join(v)`: over a list it joins the elements, over a
string it joins the characters. -/
def pyJoin (sep : String) : PyVal → String
  | .l vs => joinSep sep vs
  | .s v => joinSep sep (v.toList.map Char.toString)

/-- The `parts` list built by `_generate_chunk_id` before the counter is
appended: `[source, type, text]` plus the kind-specific discriminators.
`none` models the `KeyError` on a missing mandatory key. -/
def idPartsBase (chunk : List (String × PyVal)) : Option (List PyVal) :=
  match pyDictGetV chunk "source", pyDictGetV chunk "type",
      pyDictGetV chunk "text" with
  | some src, some ty, some tx =>
    let discr : List PyVal :=
      if ty = .s "vimdoc" then
        (match pyDictGetV chunk "heading" with
          | some h => if pyTruthy h then [h] else []
          | none => []) ++
        (match pyDictGetV chunk "tags" with
          | some t => if pyTruthy t then [.s (pyJoin "," t)] else []
          | none => [])
      else if ty = .s "markdown" then
        match pyDictGetV chunk "headings" with
        | some hs => if pyTruthy hs then [.s (pyJoin " > " hs)] else []
        | none => []
      else []
    some ([src, ty, tx] ++ discr)
  | _, _, _ => none

/-- A part must be a string for `"|||".join(parts)` to succeed;
a list-valued part raises `TypeError` (`none`). -/
def asStr : PyVal → Option String
  | .s v => some v
  | .l _ => none

/-- The string `content = "|||".join(parts)`, with `str(counter)` appended to the
parts when `counter > 0`. -/
def chunkIdContent (chunk : List (String × PyVal)) (counter : Nat) : Option String :=
  (idPartsBase chunk).bind fun ps =>
    ((ps ++ if 0 < counter then [PyVal.s (Nat.repr counter)] else []).mapM
      asStr).map (joinSep "|||")

/-- The function `_generate_chunk_id(chunk, counter)`. -/
def generate_chunk_id (sha256hex : String → String)
    (chunk : List (String × PyVal)) (counter : Nat) : Option String :=
  (chunkIdContent chunk counter).map sha256hex

/-! ## MarkdownSegmenter — `chunk_markdown` in `src/readme_chunker.py`

`MarkdownIt().parse(text)` is the external parser; `chunk_markdown` is
modelled as a function of its token stream.  An inline token carries its
`content` and `children`; the `while` loop with its manual index jumps
(`i += 2`, `i += 1`, the nested list loops) becomes a single recursion
over the token list with a mode for the two nested list loops, each arm
consuming exactly the tokens the corresponding jump skips. -/

/-- A child of an inline token, as dispatched by `extract_inline_text`:
`text`, `code_inline`, `softbreak`/`hardbreak`, `link_open`/`link_close`,
`image`, a child with (non-)empty `children` of its own, or any other
child type (which contributes nothing). -/
inductive Inl where
  | text (content : String)
  | codeInline (content : String)
  | softbreak
  | hardbreak
  | linkOpen
  | linkClose
  | image
  | nested (content : String) (children : List Inl)
  | otherChild

mutual

/-- One iteration of the `for child in token.children` loop of
`extract_inline_text`. -/
def extractChild : Inl → String
  | .text s => s
  | .codeInline s => "`" ++ s ++ "`"
  | .softbreak => "\n"
  | .hardbreak => "\n"
  | .linkOpen => ""
  | .linkClose => ""
  | .image => ""
  | .nested _ [] => ""
  | .nested _ (c :: cs) => extractChild c ++ extractChildList cs
  | .otherChild => ""

/-- The join `"".join(parts)` over the loop of `extract_inline_text`. -/
def extractChildList : List Inl → String
  | [] => ""
  | c :: cs => extractChild c ++ extractChildList cs

end

/-- Model of `extract_inline_text(token)`: the token's raw `content` when it has
no children, else the joined child contributions. -/
def extract_inline_text (content : String) (children : List Inl) : String :=
  if children.isEmpty then content else extractChildList children

/-- A block-level token of `MarkdownIt().parse`, restricted to the types
`chunk_markdown` dispatches on (`other` covers the rest). -/
inductive MdToken where
  | headingOpen (tag : String)
  | headingClose
  | inline (content : String) (children : List Inl)
  | paragraphOpen
  | paragraphClose
  | fence (info : String) (content : String)
  | codeBlock (content : String)
  | bulletListOpen
  | orderedListOpen
  | bulletListClose
  | orderedListClose
  | listItemOpen
  | listItemClose
  | htmlBlock (content : String)
  | htmlInline (content : String)
  | other (ttype : String)

/-- A chunk produced by `chunk_markdown`: the dict
`{"type": "markdown", "source": ..., "headings": ..., "text": ...}`. -/
structure MChunk where
  ctype : String
  source : String
  headings : List String
  text : String
deriving DecidableEq, Repr

/-- The level `int(token.tag[1])` for a heading tag `h1`..`h6`. -/
def headingLevel (tag : String) : Nat :=
  ((tag.toList.drop 1).headD '0').toNat - '0'.toNat

/-- The save-accumulated-text step (run at each heading boundary and at
end of document): join the accumulated parts with newlines, strip, and
emit one chunk tagged with the current heading stack unless the result
is empty. -/
def flushPart (source : String) (stack parts : List String) : List MChunk :=
  let t := pyStrip (joinSep "\n" parts)
  if t = "" then [] else [⟨"markdown", source, stack, t⟩]

/-- The text `extract_inline_text(tokens[i])` when `tokens[i]` is an inline token,
`""` otherwise (the `tokens[i].type == "inline"` check). -/
def inlineTextOf : MdToken → String
  | .inline c ch => extract_inline_text c ch
  | _ => ""

/-- The paragraph branch: append the extracted text to the accumulated
parts when the next token is inline and the text is non-blank. -/
def paraAppend (parts : List String) (t : MdToken) : List String :=
  match t with
  | .inline c ch =>
    let s := extract_inline_text c ch
    if pyStrip s = "" then parts else parts ++ [s]
  | _ => parts

/-- The list-item paragraph branch: append the extracted text (with no
blank check) when the next token is inline. -/
def itemParaAppend (ip : List String) (t : MdToken) : List String :=
  match t with
  | .inline c ch => ip ++ [extract_inline_text c ch]
  | _ => ip

/-- The step `if item_parts: list_text.append(" ".join(item_parts))`. -/
def closeItem (lt ip : List String) : List String :=
  if ip.isEmpty then lt else lt ++ [joinSep " " ip]

/-- The step `if list_text: current_text_parts.append("\n".join(list_text))`. -/
def closeList (parts lt : List String) : List String :=
  if lt.isEmpty then parts else parts ++ [joinSep "\n" lt]

/-- The fenced-code contribution (with `code = content.rstrip("\n")`). -/
def fenceText (info content : String) : String :=
  "```" ++ info ++ "\n" ++ rstripNL content ++ "\n```"

/-- Position of the scan within the nested list-processing loops:
outside any list, inside a list awaiting `list_item_open`, or inside a
list item. -/
inductive MdMode where
  | normal
  | inList (listText : List String)
  | inItem (listText itemParts : List String)
deriving DecidableEq, Repr

/-- The main `while i < len(tokens)` loop of `chunk_markdown`.  `none`
models the `IndexError` Python raises when a `paragraph_open` inside a
list item is the last token (`tokens[i]` read without a bounds check);
every other arm consumes exactly the tokens the Python index jumps
over. -/
def chunkMarkdownGo (source : String) :
    List MdToken → MdMode → List String → List String → Option (List MChunk)
  | [], .normal, stack, parts => some (flushPart source stack parts)
  | .headingOpen tag :: t2 :: _ :: rest, .normal, stack, parts =>
    (chunkMarkdownGo source rest .normal
      (stack.take (headingLevel tag - 1) ++ [inlineTextOf t2]) []).map
      (flushPart source stack parts ++ ·)
  | .headingOpen _ :: [_], .normal, stack, parts =>
    some (flushPart source stack parts)
  | [.headingOpen _], .normal, stack, parts =>
    some (flushPart source stack parts)
  | .paragraphOpen :: t2 :: _ :: rest, .normal, stack, parts =>
    chunkMarkdownGo source rest .normal stack (paraAppend parts t2)
  | .paragraphOpen :: [t2], .normal, stack, parts =>
    some (flushPart source stack (paraAppend parts t2))
  | [.paragraphOpen], .normal, stack, parts =>
    some (flushPart source stack parts)
  | .fence info content :: rest, .normal, stack, parts =>
    chunkMarkdownGo source rest .normal stack (parts ++ [fenceText info content])
  | .codeBlock content :: rest, .normal, stack, parts =>
    chunkMarkdownGo source rest .normal stack (parts ++ [fenceText "" content])
  | .bulletListOpen :: rest, .normal, stack, parts =>
    chunkMarkdownGo source rest (.inList []) stack parts
  | .orderedListOpen :: rest, .normal, stack, parts =>
    chunkMarkdownGo source rest (.inList []) stack parts
  | _ :: rest, .normal, stack, parts =>
    chunkMarkdownGo source rest .normal stack parts
  | [], .inList lt, stack, parts =>
    some (flushPart source stack (closeList parts lt))
  | .listItemOpen :: rest, .inList lt, stack, parts =>
    chunkMarkdownGo source rest (.inItem lt []) stack parts
  | _ :: rest, .inList lt, stack, parts =>
    chunkMarkdownGo source rest .normal stack (closeList parts lt)
  | [], .inItem lt ip, stack, parts =>
    some (flushPart source stack (closeList parts (closeItem lt ip)))
  | .listItemClose :: rest, .inItem lt ip, stack, parts =>
    chunkMarkdownGo source rest (.inList (closeItem lt ip)) stack parts
  | .paragraphOpen :: t2 :: _ :: rest, .inItem lt ip, stack, parts =>
    chunkMarkdownGo source rest (.inItem lt (itemParaAppend ip t2)) stack parts
  | .paragraphOpen :: [t2], .inItem lt ip, stack, parts =>
    some (flushPart source stack (closeList parts (closeItem lt (itemParaAppend ip t2))))
  | [.paragraphOpen], .inItem _ _, _, _ => none
  | _ :: rest, .inItem lt ip, stack, parts =>
    chunkMarkdownGo source rest (.inItem lt ip) stack parts

/-- The function `chunk_markdown(text, source)` as a function of the parsed token
stream `MarkdownIt().parse(text)`. -/
def chunk_markdown (tokens : List MdToken) (source : String) :
    Option (List MChunk) :=
  chunkMarkdownGo source tokens .normal [] []

/-! ## IngestionOrchestrator — `VimproveIngestion` in `ingestion_pipeline.py`
and `ErrorLogger` in `src/error_logger.py`

The fetchers, the release tracker's verdict and the chunkers' output are
parameters: `fetchSeg p` is the combined outcome of
`fetcher.fetch_plugin_docs` plus chunking for plugin `p` (an exception
from either is one `Except.error`), `fetchCore` the outcome of
`fetch_neovim_docs` (a list of doc-file stems, each with its own
read-and-chunk outcome), `needsUpd` the release tracker's answer.  The
state carries the `ErrorLogger`'s in-memory record list (the record's
wall-clock timestamp is external and omitted) and the chunk files
persisted under the cache directory, keyed by relative path.  The chunk
type is an abstract `χ`. -/

/-- One record appended by `ErrorLogger.log_error` (minus the wall-clock
timestamp). -/
structure ErrRecord where
  source : String
  error_type : String
  message : String
  details : List (String × String)
deriving DecidableEq, Repr

/-- The orchestrator-visible state: the error log accumulated so far and
the persisted chunk batches, keyed by output path. -/
structure PipeState (χ : Type) where
  log : List ErrRecord
  store : List (String × List χ)
deriving DecidableEq, Repr

/-- The split `owner, repo = owner_repo.split("/")` (assuming the exactly-two-parts
shape all configured sources have; on any other shape Python raises
before reaching the code modelled here). -/
def ownerOf (ownerRepo : String) : String :=
  (splitOnChar '/' ownerRepo).headD ""

def repoOf (ownerRepo : String) : String :=
  ((splitOnChar '/' ownerRepo).drop 1).headD ""

/-- One iteration of the `for plugin_name, owner_repo in plugins.items()`
loop of `_process_plugins`: skip when no update is needed and a stored
batch exists; otherwise fetch-and-chunk — on success save the batch
unless it is empty (then the state is left untouched, with only a
console print), on an exception append one `ErrorRecord` and keep the
store unchanged. -/
def process_one_plugin {χ : Type} (force : Bool) (needsUpd : String → Bool)
    (fetchSeg : String → Except String (List χ)) (st : PipeState χ)
    (ownerRepo : String) : PipeState χ :=
  let outPath := "plugins/" ++ repoOf ownerRepo ++ ".json"
  let needed := force || needsUpd ownerRepo
  if !needed && (dictGet st.store outPath).isSome then st
  else
    match fetchSeg ownerRepo with
    | .ok chunks =>
      if chunks.isEmpty then st
      else { st with store := dictSet st.store outPath chunks }
    | .error e =>
      { st with log := st.log ++ [⟨ownerRepo, "plugin_processing_failed", e,
          [("owner", ownerOf ownerRepo), ("repo", repoOf ownerRepo)]⟩] }

/-- The method `_process_plugins`: the loop over the plugin list. -/
def process_plugins {χ : Type} (force : Bool) (needsUpd : String → Bool)
    (fetchSeg : String → Except String (List χ)) (st : PipeState χ)
    (plugins : List String) : PipeState χ :=
  plugins.foldl (process_one_plugin force needsUpd fetchSeg) st

/-- The per-doc-file loop of `_process_neovim_core`: a read-and-chunk
failure appends one `ErrorRecord` and the loop continues; a non-empty
chunk list is saved; an empty one is skipped silently. -/
def process_core_file {χ : Type} (st : PipeState χ)
    (f : String × Except String (List χ)) : PipeState χ :=
  match f.2 with
  | .ok chunks =>
    if chunks.isEmpty then st
    else
      { st with
        store := dictSet st.store ("neovim-core/" ++ f.1 ++ ".json") chunks }
  | .error e =>
    { st with
      log := st.log ++
        [⟨"neovim-core/" ++ f.1 ++ ".txt", "processing_failed", e, []⟩] }

/-- The method `_process_neovim_core`: skip when cached output exists (unless
forced); a fetch failure is logged and then RE-RAISED (`raise`), which
`run` does not catch — the whole pipeline run aborts (`Except.error`). -/
def process_neovim_core {χ : Type} (force coreCached : Bool)
    (fetchCore : Except String (List (String × Except String (List χ))))
    (st : PipeState χ) : Except (PipeState χ) (PipeState χ) :=
  if !force && coreCached then .ok st
  else
    match fetchCore with
    | .error e =>
      .error { st with log := st.log ++ [⟨"neovim-core", "fetch_failed", e, []⟩] }
    | .ok files => .ok (files.foldl process_core_file st)

/-- Model of `VimproveIngestion.run` steps 2 and 3: core docs, then plugins; an
exception escaping step 2 aborts the run before step 3. -/
def run_pipeline {χ : Type} (force coreCached : Bool)
    (fetchCore : Except String (List (String × Except String (List χ))))
    (needsUpd : String → Bool) (fetchSeg : String → Except String (List χ))
    (plugins : List String) (st : PipeState χ) :
    Except (PipeState χ) (PipeState χ) :=
  match process_neovim_core force coreCached fetchCore st with
  | .error st2 => .error st2
  | .ok st2 => .ok (process_plugins force needsUpd fetchSeg st2 plugins)

/-! ## Batch id assignment — `VimproveEmbedder._embed_and_store`

The embedding model and the vector store are external; what is modelled
is the id-assignment loop: the 32-chunk batching and, per batch, the
`seen_ids` set and `counter_map` used to disambiguate duplicates. -/

/-- The per-batch id-assignment loop of `_embed_and_store`: `seen` is
`seen_ids` (only membership matters), `cm` is `counter_map`.  `none`
models an uncaught exception from `_generate_chunk_id`. -/
def assignBatchIds (sha256hex : String → String) :
    List (List (String × PyVal)) → List String → List (String × Nat) →
      Option (List String)
  | [], _, _ => some []
  | c :: rest, seen, cm =>
    match generate_chunk_id sha256hex c 0 with
    | none => none
    | some b =>
      if b ∈ seen then
        let k := (dictGet cm b).getD 0 + 1
        match generate_chunk_id sha256hex c k with
        | none => none
        | some cid =>
          (assignBatchIds sha256hex rest (cid :: seen) (dictSet cm b k)).map
            (cid :: ·)
      else
        (assignBatchIds sha256hex rest (b :: seen) cm).map (b :: ·)

/-- The slices `chunks[i:i+32]` for `i in range(0, len(chunks), 32)`: the batches of
32 (the last one shorter).  The `Nat` argument is a structural bound;
with `fuel ≥ len(chunks)` it is never exhausted since each step drops a
non-empty prefix. -/
def toBatchesFuel {α : Type} : Nat → List α → List (List α)
  | _, [] => []
  | 0, _ :: _ => []
  | n + 1, c :: rest => (c :: rest).take 32 :: toBatchesFuel n ((c :: rest).drop 32)

/-- The ids assigned across all batches of one `_embed_and_store` run,
in order. -/
def assign_ids (sha256hex : String → String)
    (chunks : List (List (String × PyVal))) : Option (List String) :=
  ((toBatchesFuel chunks.length chunks).mapM
    (fun b => assignBatchIds sha256hex b [] [])).map List.join

/-- The id a chunk receives at a given counter (defined when
`chunkIdContent` succeeds, which is the only case the theorems use). -/
def id_at (sha256hex : String → String) (chunk : List (String × PyVal))
    (counter : Nat) : String :=
  sha256hex ((chunkIdContent chunk counter).getD "")

/-! ## Theorems

The theorems below settle the claims; helper lemmas precede the claim
theorems they support, and each witness follows its theorem. -/

theorem length_dropWhile_le (p : α → Bool) (l : List α) :
    (l.dropWhile p).length ≤ l.length :=
  (List.dropWhile_sublist p).length_le

theorem matchTilde_length_lt :
    ∀ cs rest, matchTilde cs = some rest → rest.length < cs.length
  | [], rest, h => by simp [matchTilde] at h
  | [_], rest, h => by simp [matchTilde] at h
  | c1 :: c2 :: cs, rest, h => by
    simp only [matchTilde] at h
    split at h
    · injection h with h
      subst h
      simp
      omega
    · split at h
      · exact absurd h (by simp)
      · have := matchTilde_length_lt (c2 :: cs) rest h
        simp at this ⊢
        omega

theorem matchSep_length_lt (cs rest : List Char) (h : matchSep cs = some rest) :
    rest.length < cs.length := by
  match cs with
  | [] => simp [matchSep] at h
  | [_] => simp [matchSep] at h
  | c1 :: c2 :: cs' =>
    simp only [matchSep] at h
    split at h
    · split at h
      · injection h with h
        subst h
        have := length_dropWhile_le (· = '\n') cs'
        simp
        omega
      · split at h
        · have := matchTilde_length_lt cs' rest h
          simp
          omega
        · exact absurd h (by simp)
    · exact absurd h (by simp)

/-- C2 counterexample: on the single-section input `"HEADING *tag*"`
(a heading-only segment), `chunk_vimdoc` emits a chunk whose text is
empty, so it is false that every emitted chunk has non-empty text after
trimming. -/
theorem chunk_vimdoc_empty_text_cex :
    ¬ (∀ c ∈ chunk_vimdoc "HEADING *tag*" "src", pyStrip c.text ≠ "") := by
  decide

/-- C2, amended: a chunk produced by the oversize sub-splitting path
always has text of at least 100 characters (hence non-empty), and a
segment whose body is at most 4000 characters yields exactly one chunk
whose text is the trimmed body — which is empty when the segment is
heading-only, so zero-length-text chunks ARE emitted for such segments;
`chunk_vimdoc` is the concatenation of these per-segment results over
the stripped non-blank parts. -/
theorem chunk_vimdoc_text_amended :
    (∀ s h t b c, c ∈ subChunks s h t b → 100 ≤ c.text.length ∧ c.text ≠ "") ∧
    (∀ s part, (partBody part).length ≤ 4000 →
      processPart s part =
        [⟨"vimdoc", s, (partHeadIdx part).1,
          findTags (partHeadIdx part).1, partBody part⟩]) ∧
    (∀ text src, chunk_vimdoc text src =
      (splitSections text).flatMap fun p =>
        if pyStrip p = "" then [] else processPart src (pyStrip p)) := by
  refine ⟨?_, ?_, ?_⟩
  · intro s h t b c hc
    simp only [subChunks, List.mem_filterMap] at hc
    obtain ⟨sub, _, hsub⟩ := hc
    by_cases hlen : (pyStrip sub).length < 100
    · rw [if_pos hlen] at hsub
      exact absurd hsub (by simp)
    · rw [if_neg hlen] at hsub
      injection hsub with hsub
      subst hsub
      refine ⟨by show 100 ≤ (pyStrip sub).length; omega, ?_⟩
      intro he
      have h0 : (pyStrip sub).length = 0 := by
        have : ((⟨"vimdoc", s, h, t, pyStrip sub⟩ : VChunk).text).length = 0 := by
          rw [he]
          rfl
        exact this
      omega
  · intro s part hle
    simp only [processPart]
    rw [if_neg (by omega)]
  · intro text src
    rfl

theorem chunk_vimdoc_text_amended_witness :
    (100 ≤ (String.mk (List.replicate 100 'a')).length ∧
      (⟨"vimdoc", "s", "h", [], String.mk (List.replicate 100 'a')⟩ : VChunk) ∈
        subChunks "s" "h" [] (String.mk (List.replicate 100 'a'))) ∧
    processPart "s" "H\nbody" = [⟨"vimdoc", "s", "H", [], "body"⟩] := by
  constructor
  · refine ⟨?_, by decide⟩
    exact (chunk_vimdoc_text_amended.1 "s" "h" []
      (String.mk (List.replicate 100 'a'))
      ⟨"vimdoc", "s", "h", [], String.mk (List.replicate 100 'a')⟩ (by decide)).1
  · rw [chunk_vimdoc_text_amended.2.1 "s" "H\nbody" (by decide)]
    decide

theorem dictGet_dictSet_self {α : Type} (d : List (String × α)) (k : String) (v : α) :
    dictGet (dictSet d k v) k = some v := by
  induction d with
  | nil => simp [dictGet, dictSet]
  | cons kv rest ih =>
    obtain ⟨k', v'⟩ := kv
    by_cases h : k' = k
    · simp [dictGet, dictSet, h]
    · simp [dictGet, dictSet, h, ih]

/-- C3: with a usable version `v`, `needs_update` returns `false` and
leaves cache and cache file untouched when `v` equals the cached value
for `owner/repo`; when it differs (including an absent key) it sets the
cache entry to `v`, persists the new cache immediately, and returns
`true`.  Hence a second call with the same looked-up version returns
`false` and changes nothing, so a version change yields `true` exactly
once. -/
theorem needs_update_version_change (cache : List (String × String))
    (owner repo v : String) :
    (dictGet cache (owner ++ "/" ++ repo) = some v →
      needs_update cache owner repo (some v) = ⟨false, cache, none⟩) ∧
    (dictGet cache (owner ++ "/" ++ repo) ≠ some v →
      needs_update cache owner repo (some v) =
        ⟨true, dictSet cache (owner ++ "/" ++ repo) v,
          some (dictSet cache (owner ++ "/" ++ repo) v)⟩) ∧
    needs_update (needs_update cache owner repo (some v)).cache owner repo (some v) =
      ⟨false, (needs_update cache owner repo (some v)).cache, none⟩ := by
  refine ⟨?_, ?_, ?_⟩
  · intro h
    simp [needs_update, h]
  · intro h
    simp [needs_update, h]
  · by_cases h : dictGet cache (owner ++ "/" ++ repo) = some v
    · simp [needs_update, h]
    · simp only [needs_update, if_pos h]
      simp [dictGet_dictSet_self]

theorem needs_update_version_change_witness :
    needs_update [] "octo" "repo" (some "v1.0") =
      ⟨true, [("octo/repo", "v1.0")], some [("octo/repo", "v1.0")]⟩ ∧
    needs_update [("octo/repo", "v1.0")] "octo" "repo" (some "v1.0") =
      ⟨false, [("octo/repo", "v1.0")], none⟩ := by
  constructor
  · exact (needs_update_version_change [] "octo" "repo" "v1.0").2.1 (by decide)
  · exact (needs_update_version_change [("octo/repo", "v1.0")] "octo" "repo"
      "v1.0").1 (by decide)

/-- C4: when the release lookup yields no usable version (`None`),
`needs_update` returns `false`, the in-memory cache is unchanged, and
nothing is written to the cache file. -/
theorem needs_update_lookup_failure (cache : List (String × String))
    (owner repo : String) :
    needs_update cache owner repo none = ⟨false, cache, none⟩ := by
  rfl

/-- C7: save-then-load is the identity on the chunk list — loading the
value written by `save_chunks` returns exactly the saved chunks (all
fields preserved), the persisted `chunk_count` equals the length of the
chunk list, and a legacy bare array is returned unchanged. -/
theorem save_chunks_load_chunks_roundtrip (chunks : List Json)
    (source utcnowIso : String) :
    load_chunks (save_chunks chunks source utcnowIso) = some (.arr chunks) ∧
    (match save_chunks chunks source utcnowIso with
      | .obj fields => jsonGet fields "chunk_count"
      | _ => none) = some (.num chunks.length) ∧
    load_chunks (.arr chunks) = some (.arr chunks) := by
  refine ⟨?_, ?_, rfl⟩
  · simp [save_chunks, load_chunks, jsonGet]
  · simp [save_chunks, jsonGet]

/-- C9 (implicit): an envelope object with no `"chunks"` key loads as the
empty list rather than raising; a bare array is returned as-is. -/
theorem load_chunks_missing_key (fields : List (String × Json))
    (h : jsonGet fields "chunks" = none) :
    load_chunks (.obj fields) = some (.arr []) ∧
    (∀ elems, load_chunks (.arr elems) = some (.arr elems)) := by
  refine ⟨?_, fun _ => rfl⟩
  simp [load_chunks, h]

theorem load_chunks_missing_key_witness :
    load_chunks (.obj [("source", .str "s"), ("chunk_count", .num 3)]) =
      some (.arr []) := by
  exact (load_chunks_missing_key [("source", .str "s"), ("chunk_count", .num 3)]
    (by simp [jsonGet])).1

/-- C6: the id at counter 0 is a pure function of the `source`, `type`,
`text`, `heading`, `tags` and `headings` entries alone: two chunk dicts
agreeing on those lookups receive the identical id, regardless of any
other keys they hold and of the order their keys were inserted in (and,
the embedding being a pure function of these inputs, independently of
the run or process evaluating it). -/
theorem generate_chunk_id_deterministic (sha256hex : String → String)
    (d1 d2 : List (String × PyVal))
    (hsrc : pyDictGetV d1 "source" = pyDictGetV d2 "source")
    (hty : pyDictGetV d1 "type" = pyDictGetV d2 "type")
    (htx : pyDictGetV d1 "text" = pyDictGetV d2 "text")
    (hh : pyDictGetV d1 "heading" = pyDictGetV d2 "heading")
    (htg : pyDictGetV d1 "tags" = pyDictGetV d2 "tags")
    (hhs : pyDictGetV d1 "headings" = pyDictGetV d2 "headings") :
    generate_chunk_id sha256hex d1 0 = generate_chunk_id sha256hex d2 0 := by
  unfold generate_chunk_id chunkIdContent idPartsBase
  rw [hsrc, hty, htx, hh, htg, hhs]

/-- C8: at a heading of level `L` the segmenter first flushes the
accumulated text into a chunk tagged with the pre-update heading stack,
and only then continues with the stack truncated to length `L-1` and the
heading's extracted plain text appended (and an empty accumulator); in
particular an h3 directly under an h2 yields the two-element heading
path `["A", "B"]` for the following text. -/
theorem chunk_markdown_heading_stack :
    (∀ (source tag : String) (t2 t3 : MdToken) (rest : List MdToken)
      (stack parts : List String),
      chunkMarkdownGo source (.headingOpen tag :: t2 :: t3 :: rest) .normal
          stack parts =
        (chunkMarkdownGo source rest .normal
          (stack.take (headingLevel tag - 1) ++ [inlineTextOf t2]) []).map
          (flushPart source stack parts ++ ·)) ∧
    chunk_markdown
        [.headingOpen "h2", .inline "A" [], .headingClose,
          .headingOpen "h3", .inline "B" [], .headingClose,
          .paragraphOpen, .inline "x" [], .paragraphClose] "s" =
      some [⟨"markdown", "s", ["A", "B"], "x"⟩] := by
  exact ⟨fun _ _ _ _ _ _ _ => rfl, by decide⟩

/-- C1 counterexample: a fetcher exception for the neovim-core source is
recorded but then re-raised, aborting the run: with one plugin source
configured whose fetch would succeed, the run ends in `Except.error`
with no batch stored and no record for the plugin — processing did NOT
continue to the next source. -/
theorem run_pipeline_core_abort_cex :
    run_pipeline false false (Except.error "network down") (fun _ => true)
        (fun _ => Except.ok [()]) ["owner/plug"] ⟨[], []⟩ =
      Except.error ⟨[⟨"neovim-core", "fetch_failed", "network down", []⟩], []⟩ := by
  rfl

/-- C1, amended: an exception from the per-plugin fetch-and-chunk step
is caught — exactly one error record with that plugin's identifier and
error type `plugin_processing_failed` is appended, no stored batch of
any source is touched — and the loop continues with the remaining
plugins; a per-core-doc-file failure likewise appends one
`processing_failed` record and continues; but an exception from the
neovim-core fetch itself, after being logged, is re-raised and aborts
the run. -/
theorem orchestrator_failure_isolation_amended {χ : Type} :
    (∀ (force : Bool) (needsUpd : String → Bool)
      (fetchSeg : String → Except String (List χ)) (st : PipeState χ)
      (p e : String), (force || needsUpd p) = true → fetchSeg p = .error e →
      process_one_plugin force needsUpd fetchSeg st p =
        ⟨st.log ++ [⟨p, "plugin_processing_failed", e,
          [("owner", ownerOf p), ("repo", repoOf p)]⟩], st.store⟩) ∧
    (∀ (force : Bool) (needsUpd : String → Bool)
      (fetchSeg : String → Except String (List χ)) (st : PipeState χ)
      (p : String) (rest : List String),
      process_plugins force needsUpd fetchSeg st (p :: rest) =
        process_plugins force needsUpd fetchSeg
          (process_one_plugin force needsUpd fetchSeg st p) rest) ∧
    (∀ (st : PipeState χ) (stem e : String),
      process_core_file st (stem, .error e) =
        ⟨st.log ++ [⟨"neovim-core/" ++ stem ++ ".txt", "processing_failed", e,
          []⟩], st.store⟩) ∧
    (∀ (e : String) (st : PipeState χ) (needsUpd : String → Bool)
      (fetchSeg : String → Except String (List χ)) (plugins : List String),
      run_pipeline false false (Except.error e) needsUpd fetchSeg plugins st =
        Except.error ⟨st.log ++ [⟨"neovim-core", "fetch_failed", e, []⟩],
          st.store⟩) := by
  refine ⟨?_, fun _ _ _ _ _ _ => rfl, fun _ _ _ => rfl, fun _ _ _ _ _ => rfl⟩
  intro force needsUpd fetchSeg st p e hneed herr
  unfold process_one_plugin
  rw [hneed]
  simp only [Bool.not_true, Bool.false_and, Bool.false_eq_true, if_false]
  rw [herr]

theorem orchestrator_failure_isolation_amended_witness :
    process_one_plugin true (fun _ => true)
        (fun _ => (Except.error "API rate limit" : Except String (List Unit)))
        ⟨[], [("plugins/other.json", [()])]⟩ "owner/plug" =
      ⟨[⟨"owner/plug", "plugin_processing_failed", "API rate limit",
        [("owner", "owner"), ("repo", "plug")]⟩],
        [("plugins/other.json", [()])]⟩ := by
  have h := (orchestrator_failure_isolation_amended (χ := Unit)).1 true
    (fun _ => true) (fun _ => Except.error "API rate limit")
    ⟨[], [("plugins/other.json", [()])]⟩ "owner/plug" "API rate limit"
    (by decide) rfl
  rw [h]
  rfl

/-- C5 counterexample: when the segmenter yields zero chunks the
orchestrator leaves the state entirely unchanged — in particular the
error log stays empty, so NO log entry is recorded for that source
(only a console message is printed). -/
theorem process_one_plugin_zero_chunks_cex :
    process_one_plugin true (fun _ => true)
        (fun _ => Except.ok ([] : List Unit))
        ⟨[], [("plugins/plug.json", [()])]⟩ "owner/plug" =
      ⟨[], [("plugins/plug.json", [()])]⟩ := by
  rfl

/-- C5, amended: if fetch-and-chunk returns cleanly with zero chunks,
the plugin's state is left exactly as it was: no chunk batch is written
(any previously persisted batch survives untouched) and the run simply
continues — but no ErrorLog entry is recorded either; the only trace is
a console print. -/
theorem process_one_plugin_zero_chunks_amended {χ : Type}
    (force : Bool) (needsUpd : String → Bool)
    (fetchSeg : String → Except String (List χ)) (st : PipeState χ)
    (p : String) (h : fetchSeg p = .ok []) :
    process_one_plugin force needsUpd fetchSeg st p = st := by
  unfold process_one_plugin
  rw [h]
  simp

theorem process_one_plugin_zero_chunks_amended_witness :
    process_one_plugin false (fun _ => false)
        (fun _ => Except.ok ([] : List Unit))
        ⟨[⟨"x", "t", "m", []⟩], [("plugins/plug.json", [(), ()])]⟩
        "owner/plug" =
      ⟨[⟨"x", "t", "m", []⟩], [("plugins/plug.json", [(), ()])]⟩ := by
  exact process_one_plugin_zero_chunks_amended false (fun _ => false)
    (fun _ => Except.ok []) ⟨[⟨"x", "t", "m", []⟩],
      [("plugins/plug.json", [(), ()])]⟩ "owner/plug" rfl

theorem joinSep_append_singleton (sep y : String) :
    ∀ xs : List String, xs ≠ [] →
      joinSep sep (xs ++ [y]) = joinSep sep xs ++ sep ++ y
  | [], h => absurd rfl h
  | [x], _ => by simp [joinSep]
  | x1 :: x2 :: xs, _ => by
    have ih := joinSep_append_singleton sep y (x2 :: xs) (by simp)
    show x1 ++ sep ++ joinSep sep (x2 :: (xs ++ [y])) =
      (x1 ++ sep ++ joinSep sep (x2 :: xs)) ++ sep ++ y
    rw [show x2 :: (xs ++ [y]) = (x2 :: xs) ++ [y] from rfl, ih]
    simp [String.append_assoc]

theorem mapM_asStr_append (r : String) :
    ∀ (ps : List PyVal) (strs : List String), ps.mapM asStr = some strs →
      (ps ++ [PyVal.s r]).mapM asStr = some (strs ++ [r])
  | [], strs, h => by
    simp only [List.mapM_nil, pure, Option.some.injEq] at h
    subst h
    rfl
  | p :: ps, strs, h => by
    simp only [List.mapM_cons, bind, Option.bind, pure] at h
    match hp : asStr p with
    | none => rw [hp] at h; exact absurd h (by simp)
    | some s =>
      rw [hp] at h
      match hps : ps.mapM asStr with
      | none => rw [hps] at h; exact absurd h (by simp)
      | some ss =>
        rw [hps] at h
        injection h with h
        subst h
        have ih := mapM_asStr_append r ps ss hps
        simp only [List.cons_append, List.mapM_cons, hp, ih, bind, Option.bind, pure]

theorem idPartsBase_shape (c : List (String × PyVal)) (ps : List PyVal)
    (h : idPartsBase c = some ps) :
    ∃ x y z rest, ps = x :: y :: z :: rest := by
  unfold idPartsBase at h
  split at h
  · injection h with h
    exact ⟨_, _, _, _, h.symm⟩
  · exact absurd h (by simp)

theorem chunkIdContent_zero_shape (c : List (String × PyVal)) (s0 : String)
    (h0 : chunkIdContent c 0 = some s0) :
    ∃ ps strs, idPartsBase c = some ps ∧ ps.mapM asStr = some strs ∧
      strs ≠ [] ∧ s0 = joinSep "|||" strs := by
  unfold chunkIdContent at h0
  match hps : idPartsBase c with
  | none => rw [hps] at h0; exact absurd h0 (by simp)
  | some ps =>
    rw [hps] at h0
    simp only [Option.some_bind] at h0
    rw [if_neg (by omega : ¬ (0 : Nat) < 0), List.append_nil] at h0
    match hms : ps.mapM asStr with
    | none => rw [hms] at h0; exact absurd h0 (by simp)
    | some strs =>
      rw [hms] at h0
      simp only [Option.map_some', Option.some.injEq] at h0
      refine ⟨ps, strs, rfl, hms, ?_, h0.symm⟩
      obtain ⟨x, y, z, rest, hshape⟩ := idPartsBase_shape c ps hps
      subst hshape
      simp only [List.mapM_cons, Option.pure_def, Option.bind_eq_bind,
        Option.bind_eq_some] at hms
      obtain ⟨sx, _, _, _, hlast⟩ := hms
      injection hlast with hlast
      subst hlast
      simp

theorem chunkIdContent_pos (c : List (String × PyVal)) (s0 : String)
    (h0 : chunkIdContent c 0 = some s0) (k : Nat) (hk : 0 < k) :
    chunkIdContent c k = some (s0 ++ "|||" ++ Nat.repr k) := by
  obtain ⟨ps, strs, hps, hms, hne, hjoin⟩ := chunkIdContent_zero_shape c s0 h0
  unfold chunkIdContent
  rw [hps]
  simp only [Option.some_bind, if_pos hk]
  rw [mapM_asStr_append (Nat.repr k) ps strs hms]
  simp only [Option.map_some', Option.some.injEq]
  rw [joinSep_append_singleton _ _ strs hne, hjoin]

theorem id_at_pos (sha256hex : String → String) (c : List (String × PyVal))
    (s0 : String) (h0 : chunkIdContent c 0 = some s0) (k : Nat) (hk : 0 < k) :
    id_at sha256hex c k = sha256hex (s0 ++ "|||" ++ Nat.repr k) := by
  unfold id_at
  rw [chunkIdContent_pos c s0 h0 k hk]
  rfl

theorem id_at_zero (sha256hex : String → String) (c : List (String × PyVal))
    (s0 : String) (h0 : chunkIdContent c 0 = some s0) :
    id_at sha256hex c 0 = sha256hex s0 := by
  unfold id_at
  rw [h0]
  rfl

/-- Within one batch, once the base id of the duplicated chunk is in
`seen_ids`, each further copy is assigned the id at the next counter
value, starting from `counter_map[base] + 1`. -/
theorem assignBatchIds_replicate_inv (sha256hex : String → String)
    (c : List (String × PyVal)) (s0 : String)
    (h0 : chunkIdContent c 0 = some s0) :
    ∀ (m : Nat) (seen : List String) (cm : List (String × Nat)),
      sha256hex s0 ∈ seen →
      assignBatchIds sha256hex (List.replicate m c) seen cm =
        some ((List.range m).map fun j =>
          id_at sha256hex c ((dictGet cm (sha256hex s0)).getD 0 + 1 + j)) := by
  intro m
  induction m with
  | zero => intro seen cm _; simp [assignBatchIds]
  | succ m ih =>
    intro seen cm hmem
    have hb : generate_chunk_id sha256hex c 0 = some (sha256hex s0) := by
      unfold generate_chunk_id
      rw [h0]
      rfl
    rw [List.replicate_succ]
    rw [show assignBatchIds sha256hex (c :: List.replicate m c) seen cm =
        (match generate_chunk_id sha256hex c 0 with
        | none => none
        | some b =>
          if b ∈ seen then
            let k := (dictGet cm b).getD 0 + 1
            match generate_chunk_id sha256hex c k with
            | none => none
            | some cid =>
              (assignBatchIds sha256hex (List.replicate m c) (cid :: seen)
                (dictSet cm b k)).map (cid :: ·)
          else
            (assignBatchIds sha256hex (List.replicate m c) (b :: seen) cm).map
              (b :: ·)) from rfl]
    rw [hb]
    simp only [if_pos hmem]
    set v := (dictGet cm (sha256hex s0)).getD 0 with hv
    have hk : generate_chunk_id sha256hex c (v + 1) =
        some (sha256hex (s0 ++ "|||" ++ Nat.repr (v + 1))) := by
      unfold generate_chunk_id
      rw [chunkIdContent_pos c s0 h0 (v + 1) (by omega)]
      rfl
    rw [hk]
    dsimp only
    have hrec := ih (sha256hex (s0 ++ "|||" ++ Nat.repr (v + 1)) :: seen)
      (dictSet cm (sha256hex s0) (v + 1)) (List.mem_cons_of_mem _ hmem)
    rw [hrec]
    simp only [Option.map_some', Option.some.injEq]
    rw [dictGet_dictSet_self]
    rw [List.range_succ_eq_map, List.map_cons, List.map_map]
    congr 1
    · rw [id_at_pos sha256hex c s0 h0 (v + 1) (by omega)]
    · apply List.map_congr_left
      intro j _
      show id_at sha256hex c ((some (v + 1)).getD 0 + 1 + j) =
        id_at sha256hex c (v + 1 + Nat.succ j)
      congr 1
      simp
      omega

/-- One whole batch of `m` copies of the same chunk: the `j`-th copy is
assigned the id at counter `j` (`seen_ids` and `counter_map` start
empty). -/
theorem assignBatchIds_replicate (sha256hex : String → String)
    (c : List (String × PyVal)) (s0 : String)
    (h0 : chunkIdContent c 0 = some s0) (m : Nat) :
    assignBatchIds sha256hex (List.replicate m c) [] [] =
      some ((List.range m).map (id_at sha256hex c)) := by
  match m with
  | 0 => simp [assignBatchIds]
  | m + 1 =>
    have hb : generate_chunk_id sha256hex c 0 = some (sha256hex s0) := by
      unfold generate_chunk_id
      rw [h0]
      rfl
    rw [List.replicate_succ]
    rw [show assignBatchIds sha256hex (c :: List.replicate m c) [] [] =
        (match generate_chunk_id sha256hex c 0 with
        | none => none
        | some b =>
          if b ∈ ([] : List String) then
            let k := (dictGet ([] : List (String × Nat)) b).getD 0 + 1
            match generate_chunk_id sha256hex c k with
            | none => none
            | some cid =>
              (assignBatchIds sha256hex (List.replicate m c) (cid :: [])
                (dictSet [] b k)).map (cid :: ·)
          else
            (assignBatchIds sha256hex (List.replicate m c) (b :: []) []).map
              (b :: ·)) from rfl]
    rw [hb]
    dsimp only
    rw [if_neg (by simp : ¬ sha256hex s0 ∈ ([] : List String))]
    rw [assignBatchIds_replicate_inv sha256hex c s0 h0 m [sha256hex s0] []
      (by simp)]
    simp only [Option.map_some', Option.some.injEq]
    rw [List.range_succ_eq_map, List.map_cons, List.map_map]
    congr 1
    · rw [id_at_zero sha256hex c s0 h0]
    · apply List.map_congr_left
      intro j _
      show id_at sha256hex c ((dictGet [] (sha256hex s0)).getD 0 + 1 + j) =
        id_at sha256hex c (Nat.succ j)
      congr 1
      show (none : Option Nat).getD 0 + 1 + j = Nat.succ j
      simp
      omega

/-- 33 to 64 chunks form exactly two batches: the first 32 and the rest. -/
theorem toBatchesFuel_replicate (c : List (String × PyVal)) (m : Nat)
    (hm0 : 0 < m) (hm : m ≤ 32) :
    toBatchesFuel (32 + m) (List.replicate (32 + m) c) =
      [List.replicate 32 c, List.replicate m c] := by
  obtain ⟨m', rfl⟩ : ∃ m', m = m' + 1 := ⟨m - 1, by omega⟩
  rw [show 32 + (m' + 1) = (32 + m') + 1 from rfl]
  rw [show List.replicate ((32 + m') + 1) c = c :: List.replicate (32 + m') c
    from List.replicate_succ c _]
  rw [show toBatchesFuel ((32 + m') + 1) (c :: List.replicate (32 + m') c) =
      (c :: List.replicate (32 + m') c).take 32 ::
        toBatchesFuel (32 + m') ((c :: List.replicate (32 + m') c).drop 32)
    from rfl]
  rw [← List.replicate_succ]
  rw [List.take_replicate, List.drop_replicate]
  rw [show (32 : Nat) ⊓ (32 + m' + 1) = 32 from by rw [inf_eq_min]; omega]
  rw [show 32 + m' + 1 - 32 = m' + 1 by omega]
  congr 1
  rw [show List.replicate (m' + 1) c = c :: List.replicate m' c
    from List.replicate_succ c _]
  obtain ⟨f', hf⟩ : ∃ f', 32 + m' = f' + 1 := ⟨31 + m', by omega⟩
  rw [hf]
  rw [show toBatchesFuel (f' + 1) (c :: List.replicate m' c) =
      (c :: List.replicate m' c).take 32 ::
        toBatchesFuel f' ((c :: List.replicate m' c).drop 32)
    from rfl]
  rw [← List.replicate_succ]
  rw [List.take_replicate, List.drop_replicate]
  rw [show (32 : Nat) ⊓ (m' + 1) = m' + 1 from by rw [inf_eq_min]; omega]
  rw [show m' + 1 - 32 = 0 by omega]
  rw [show List.replicate 0 c = [] from rfl]
  rw [show toBatchesFuel f' ([] : List (List (String × PyVal))) = [] by
    cases f' <;> rfl]

theorem repr_distinct_32 :
    ∀ i, i < 32 → ∀ j, j < 32 → i ≠ j → Nat.repr i ≠ Nat.repr j := by
  decide

theorem string_append_cancel_left {a b c : String} (h : a ++ b = a ++ c) :
    b = c := by
  apply String.ext
  have := congrArg String.data h
  simp only [String.data_append] at this
  exact List.append_cancel_left this

/-- The hashed contents at distinct counters below 32 are distinct
strings. -/
theorem chunkIdContent_distinct (c : List (String × PyVal)) (s0 : String)
    (h0 : chunkIdContent c 0 = some s0) (i j : Nat) (hi : i < 32) (hj : j < 32)
    (hne : i ≠ j) :
    (chunkIdContent c i).getD "" ≠ (chunkIdContent c j).getD "" := by
  have hlen : ∀ k, 0 < k →
      (chunkIdContent c k).getD "" = s0 ++ "|||" ++ Nat.repr k := by
    intro k hk
    rw [chunkIdContent_pos c s0 h0 k hk]
    rfl
  have hzero : (chunkIdContent c 0).getD "" = s0 := by rw [h0]; rfl
  match i, j with
  | 0, 0 => exact absurd rfl hne
  | 0, j + 1 =>
    rw [hzero, hlen (j + 1) (by omega)]
    intro he
    have := congrArg String.length he
    simp only [String.length_append,
      show ("|||" : String).length = 3 from rfl] at this
    omega
  | i + 1, 0 =>
    rw [hzero, hlen (i + 1) (by omega)]
    intro he
    have := congrArg String.length he
    simp only [String.length_append,
      show ("|||" : String).length = 3 from rfl] at this
    omega
  | i + 1, j + 1 =>
    rw [hlen (i + 1) (by omega), hlen (j + 1) (by omega)]
    intro he
    rw [String.append_assoc, String.append_assoc] at he
    have := string_append_cancel_left he
    have := string_append_cancel_left this
    exact repr_distinct_32 (i + 1) hi (j + 1) hj hne this

/-- C10 (implicit): duplicate disambiguation is scoped to one 32-chunk
batch.  For `32 + m` copies of one chunk (`0 < m ≤ 32`, so exactly two
batches): the `k`-th copy within the first batch receives the id at
counter `k` (the `k+1`-st occurrence gets counter `k`), the first copy
of the second batch receives counter 0 again — the identical id as the
very first copy, because `seen_ids` and `counter_map` are rebuilt per
batch — while within the first batch all 32 assigned ids are pairwise
distinct whenever the hash is collision-free on the contents involved. -/
theorem assign_ids_batch_scoped (sha256hex : String → String)
    (c : List (String × PyVal)) (s0 : String)
    (h0 : chunkIdContent c 0 = some s0) (m : Nat) (hm0 : 0 < m) (hm : m ≤ 32) :
    assign_ids sha256hex (List.replicate (32 + m) c) =
      some ((List.range 32).map (id_at sha256hex c) ++
        (List.range m).map (id_at sha256hex c)) ∧
    (∀ k, 0 < k → id_at sha256hex c k = sha256hex (s0 ++ "|||" ++ Nat.repr k)) ∧
    (Function.Injective sha256hex → ∀ i j, i < 32 → j < 32 → i ≠ j →
      id_at sha256hex c i ≠ id_at sha256hex c j) := by
  refine ⟨?_, fun k hk => id_at_pos sha256hex c s0 h0 k hk, ?_⟩
  · unfold assign_ids
    rw [List.length_replicate]
    rw [toBatchesFuel_replicate c m hm0 hm]
    simp only [List.mapM_cons, List.mapM_nil, Option.pure_def,
      Option.bind_eq_bind]
    rw [assignBatchIds_replicate sha256hex c s0 h0 32,
      assignBatchIds_replicate sha256hex c s0 h0 m]
    simp [List.join]
  · intro hinj i j hi hj hne heq
    exact chunkIdContent_distinct c s0 h0 i j hi hj hne (hinj heq)

theorem assign_ids_batch_scoped_witness :
    assign_ids (fun s : String => s)
        (List.replicate (32 + 1)
          [("source", PyVal.s "src"), ("type", PyVal.s "doc"),
            ("text", PyVal.s "T")]) =
      some ((List.range 32).map (id_at (fun s : String => s)
          [("source", PyVal.s "src"), ("type", PyVal.s "doc"),
            ("text", PyVal.s "T")]) ++
        (List.range 1).map (id_at (fun s : String => s)
          [("source", PyVal.s "src"), ("type", PyVal.s "doc"),
            ("text", PyVal.s "T")])) ∧
    id_at (fun s : String => s)
        [("source", PyVal.s "src"), ("type", PyVal.s "doc"),
          ("text", PyVal.s "T")] 1 ≠
      id_at (fun s : String => s)
        [("source", PyVal.s "src"), ("type", PyVal.s "doc"),
          ("text", PyVal.s "T")] 0 := by
  have h := assign_ids_batch_scoped (fun s : String => s)
    [("source", PyVal.s "src"), ("type", PyVal.s "doc"), ("text", PyVal.s "T")]
    "src|||doc|||T" (by rfl) 1 (by decide) (by decide)
  exact ⟨h.1, h.2.2 (fun a b hab => hab) 1 0 (by decide) (by decide) (by decide)⟩

theorem generate_chunk_id_deterministic_witness :
    generate_chunk_id (fun s => s)
        [("source", PyVal.s "nvim-telescope/telescope.nvim"),
          ("type", PyVal.s "vimdoc"), ("text", PyVal.s "body"),
          ("heading", PyVal.s "H *t*"), ("tags", PyVal.l ["t"]),
          ("embedded_at", PyVal.s "run1")] 0 =
      generate_chunk_id (fun s => s)
        [("batch", PyVal.l ["other", "keys"]), ("tags", PyVal.l ["t"]),
          ("heading", PyVal.s "H *t*"), ("text", PyVal.s "body"),
          ("type", PyVal.s "vimdoc"),
          ("source", PyVal.s "nvim-telescope/telescope.nvim")] 0 := by
  exact generate_chunk_id_deterministic (fun s => s) _ _
    (by decide) (by decide) (by decide) (by decide) (by decide) (by decide)

end Vimprove

